import Mathlib

/-!
Verification development for the semantic-analysis core of a Lua language
server (`emmylua-analyzer-rust`).  The development shallowly embeds the
member-resolution algorithm of `semantic/infer/infer_index.rs`, the
local-statement binding pass of `compilation/analyzer/lua/stats.rs`, the
workspace file loader of `vfs/loader.rs` and the workspace configuration of
`config/configs/workspace.rs`, and proves or refutes the specified
properties about them.

Modelling conventions:
* machine integers (`i64`) are modelled as `Int`, `usize` casts as `Int.toNat`;
* fallible Rust functions returning `Result<T, InferFailReason>` become
  `Except InferFailReason LuaType`;
* the recursive member-resolution functions take an explicit fuel argument
  (`Nat`) to make them total; fuel exhaustion returns `InferFailReason.none`
  and is a termination artifact only — every theorem below is stated for a
  successor fuel, mirroring one unfolding of the Rust recursion;
* syntax-tree inspection (access paths, the for-loop bound detection, the
  enum-variable detection) is abstracted into boolean fields of the index
  expression model, because the parser is an external collaborator;
* the inference cache argument of the Rust functions is omitted: the cache
  only memoises results and the functions modelled here never read it.
-/

/-- The failure reasons of inference, from `InferFailReason` (the variants
carrying syntax handles keep only an abstract numeric id). -/
inductive InferFailReason where
  | none
  | fieldNotFound
  | unResolveExpr (id : Nat)
  | unResolveDeclType (id : Nat)
deriving DecidableEq, Repr

/-- Array length annotation, from `LuaArrayLen`: either unbounded or a
declared maximum length. -/
inductive LuaArrayLen where
  | None
  | Max (n : Int)
deriving DecidableEq, Repr

/-- The type values of the analyzer, from `LuaType`.  Only the variants
reachable from the verified code paths are modelled; `Object`, `Generic`,
`TableGeneric`, `Namespace`, `Global`, `FileEnv`, `TplRef`, `MultiLineUnion`
and the remaining primitive variants are omitted together with their
dispatch arms.  Nominal ids and table ranges are abstract `Nat`s. -/
inductive LuaType where
  | Any
  | Unknown
  | Nil
  | Boolean
  | Integer
  | Number
  | String
  | Table
  | IntegerConst (i : Int)
  | DocIntegerConst (i : Int)
  | StringConst (s : String)
  | DocStringConst (s : String)
  | Union (ts : List LuaType)
  | Intersection (ts : List LuaType)
  | Tuple (ts : List LuaType)
  | Array (base : LuaType) (len : LuaArrayLen)
  | Ref (id : Nat)
  | Def (id : Nat)
  | Variadic (ts : List LuaType)
  | Instance (base : LuaType) (range : Nat)
  | TableConst (range : Nat)
deriving Repr

mutual

/-- Structural equality of type values (Rust `PartialEq` on `LuaType`). -/
def LuaType.beq : LuaType → LuaType → Bool
  | .Any, .Any => true
  | .Unknown, .Unknown => true
  | .Nil, .Nil => true
  | .Boolean, .Boolean => true
  | .Integer, .Integer => true
  | .Number, .Number => true
  | .String, .String => true
  | .Table, .Table => true
  | .IntegerConst i, .IntegerConst j => i == j
  | .DocIntegerConst i, .DocIntegerConst j => i == j
  | .StringConst s, .StringConst t => s == t
  | .DocStringConst s, .DocStringConst t => s == t
  | .Union ts, .Union us => LuaType.beqList ts us
  | .Intersection ts, .Intersection us => LuaType.beqList ts us
  | .Tuple ts, .Tuple us => LuaType.beqList ts us
  | .Array b1 l1, .Array b2 l2 => LuaType.beq b1 b2 && (l1 == l2)
  | .Ref i, .Ref j => i == j
  | .Def i, .Def j => i == j
  | .Variadic ts, .Variadic us => LuaType.beqList ts us
  | .Instance b1 r1, .Instance b2 r2 => LuaType.beq b1 b2 && (r1 == r2)
  | .TableConst r1, .TableConst r2 => r1 == r2
  | _, _ => false

/-- Pointwise structural equality on type lists. -/
def LuaType.beqList : List LuaType → List LuaType → Bool
  | [], [] => true
  | t :: ts, u :: us => LuaType.beq t u && LuaType.beqList ts us
  | _, _ => false

end

/-- `LuaType::is_nil`. -/
def LuaType.isNil : LuaType → Bool
  | .Nil => true
  | _ => false

/-- `LuaType::is_unknown`. -/
def LuaType.isUnknown : LuaType → Bool
  | .Unknown => true
  | _ => false

/-- `LuaType::is_integer`: the general integer primitive and the integer
literal types. -/
def LuaType.isInteger : LuaType → Bool
  | .Integer => true
  | .IntegerConst _ => true
  | .DocIntegerConst _ => true
  | _ => false

/-- Modelled from the spec: `LuaType::from_vec` (its source is outside the
provided files) builds a type from a list: "`Union([])` normalizes to
`Unknown`", a singleton collapses to its element, otherwise a union. -/
def LuaType.fromVec : List LuaType → LuaType
  | [] => .Unknown
  | [t] => t
  | ts => .Union ts

mutual

/-- Modelled from the spec: the flattening step of `Union.apply` —
"flattens nested unions". -/
def LuaType.flattenUnion : LuaType → List LuaType
  | .Union ts => LuaType.flattenUnionList ts
  | t => [t]

/-- Flattening over a list of union arms. -/
def LuaType.flattenUnionList : List LuaType → List LuaType
  | [] => []
  | t :: ts => LuaType.flattenUnion t ++ LuaType.flattenUnionList ts

end

/-- Duplicate collapse of `Union.apply`, keeping first occurrences. -/
def dedupTypes (seen : List LuaType) : List LuaType → List LuaType
  | [] => []
  | t :: ts =>
    if seen.any (fun u => LuaType.beq u t) then dedupTypes seen ts
    else t :: dedupTypes (t :: seen) ts

/-- Modelled from the spec: the literal-subsumption step of `Union.apply` —
an integer literal is subsumed by `Integer`, a string literal by `String`
(`IntegerConst(3) ⊑ Integer`). -/
def literalSubsumed (parts : List LuaType) : LuaType → Bool
  | .IntegerConst _ => parts.any (fun t => match t with | .Integer => true | _ => false)
  | .DocIntegerConst _ => parts.any (fun t => match t with | .Integer => true | _ => false)
  | .StringConst _ => parts.any (fun t => match t with | .String => true | _ => false)
  | .DocStringConst _ => parts.any (fun t => match t with | .String => true | _ => false)
  | _ => false

/-- Member keys, from `LuaMemberKey`: a name, an integer, or a key that is
itself a type (`ExprType`). -/
inductive LuaMemberKey where
  | name (s : String)
  | integer (i : Int)
  | exprType (t : LuaType)
deriving Repr

/-- Structural equality of member keys (Rust `PartialEq` on `LuaMemberKey`). -/
def LuaMemberKey.beq : LuaMemberKey → LuaMemberKey → Bool
  | .name s, .name t => s == t
  | .integer i, .integer j => i == j
  | .exprType t, .exprType u => LuaType.beq t u
  | _, _ => false

/-- Member owners, from `LuaMemberOwner`: a named type or an anonymous table
element (ranges abstracted to `Nat`); the `GlobalPath` variant is unused by
the modelled paths and omitted. -/
inductive LuaMemberOwner where
  | type (id : Nat)
  | element (range : Nat)
deriving DecidableEq, Repr

/-- Equality of member owners. -/
def LuaMemberOwner.beq : LuaMemberOwner → LuaMemberOwner → Bool
  | .type i, .type j => i == j
  | .element i, .element j => i == j
  | _, _ => false

/-- Operator owners, from `LuaOperatorOwner` (only the forms used by the
`__index` metamethod lookup). -/
inductive LuaOperatorOwner where
  | type (id : Nat)
  | table (range : Nat)
deriving DecidableEq, Repr

/-- Equality of operator owners. -/
def LuaOperatorOwner.beq : LuaOperatorOwner → LuaOperatorOwner → Bool
  | .type i, .type j => i == j
  | .table i, .table j => i == j
  | _, _ => false

/-- Kind of a type declaration (`Class`, `Enum` or `Alias`). -/
inductive LuaTypeDeclKind where
  | cls
  | enum
  | alias
deriving DecidableEq, Repr

/-- A type declaration, from `LuaTypeDecl`.  `aliasOrigin` models
`get_alias_origin(db, None)`; `isEnumKey` models `is_enum_key` for enum
declarations. -/
structure LuaTypeDecl where
  kind : LuaTypeDeclKind
  aliasOrigin : Option LuaType
  isEnumKey : Bool
deriving Repr

/-- `LuaTypeDecl::is_class`. -/
def LuaTypeDecl.isClass (d : LuaTypeDecl) : Bool := d.kind == .cls

/-- `LuaTypeDecl::is_enum`. -/
def LuaTypeDecl.isEnum (d : LuaTypeDecl) : Bool := d.kind == .enum

/-- `LuaTypeDecl::is_alias`. -/
def LuaTypeDecl.isAlias (d : LuaTypeDecl) : Bool := d.kind == .alias

/-- One member record: its owner, its key and the result of
`member_item.resolve_type(db)`.  The per-member type cache
(`get_type_cache`) is modelled as the `Except.ok` projection of the same
result. -/
structure LuaMember where
  owner : LuaMemberOwner
  key : LuaMemberKey
  typ : Except InferFailReason LuaType
deriving Repr

/-- An `__index` metamethod operator: its operand (key) type and the result
of `operator.get_result(db)`. -/
structure LuaOperator where
  operand : LuaType
  result : Except InferFailReason LuaType
deriving Repr

/-- The slice of the index database (`DbIndex`) consulted by the modelled
code paths: type declarations, super-type edges, members, `__index`
operators, metatable registrations, the `strict.arrayIndex` configuration
and the builtin string type id (`get_buildin_type_map_type_id`). -/
structure DbIndex where
  typeDecls : List (Nat × LuaTypeDecl)
  superTypes : List (Nat × List LuaType)
  members : List LuaMember
  indexOperators : List (LuaOperatorOwner × List LuaOperator)
  metatables : List (Nat × Nat)
  strictArrayIndex : Bool
  stringDeclId : Option Nat
deriving Repr

/-- `type_index.get_type_decl`. -/
def DbIndex.getTypeDecl (db : DbIndex) (id : Nat) : Option LuaTypeDecl :=
  (db.typeDecls.find? (fun p => p.1 == id)).map (·.2)

/-- `type_index.get_super_types`. -/
def DbIndex.getSuperTypes (db : DbIndex) (id : Nat) : Option (List LuaType) :=
  (db.superTypes.find? (fun p => p.1 == id)).map (·.2)

/-- `member_index.get_member_item(owner, key)` followed by
`resolve_type(db)`: the first member of the owner with the key. -/
def DbIndex.getMemberItem (db : DbIndex) (owner : LuaMemberOwner) (key : LuaMemberKey) :
    Option (Except InferFailReason LuaType) :=
  (db.members.find? (fun m => m.owner.beq owner && m.key.beq key)).map (·.typ)

/-- `member_index.get_members(owner)`. -/
def DbIndex.getMembers (db : DbIndex) (owner : LuaMemberOwner) : List LuaMember :=
  db.members.filter (fun m => m.owner.beq owner)

/-- `operator_index.get_operators(owner, LuaOperatorMetaMethod::Index)`. -/
def DbIndex.getIndexOperators (db : DbIndex) (owner : LuaOperatorOwner) :
    Option (List LuaOperator) :=
  (db.indexOperators.find? (fun p => p.1.beq owner)).map (·.2)

/-- `metatable_index.get(table_range)`. -/
def DbIndex.getMetatable (db : DbIndex) (range : Nat) : Option Nat :=
  (db.metatables.find? (fun p => p.1 == range)).map (·.2)

/-- The re-entry guard of member resolution.  Modelled from the spec:
`InferGuard` "records visited ids along the current chain and fails with
`FieldNotFound` on re-entry" (its source is outside the provided files). -/
structure InferGuard where
  visited : List Nat
deriving DecidableEq, Repr

/-- `InferGuard::new`. -/
def InferGuard.new : InferGuard := ⟨[]⟩

/-- `InferGuard::check`: fail on a previously visited type id, otherwise
record the id. -/
def InferGuard.check (g : InferGuard) (id : Nat) : Except InferFailReason InferGuard :=
  if id ∈ g.visited then .error .fieldNotFound else .ok ⟨id :: g.visited⟩

/-- Modelled from the spec: `TypeOps::Union.apply(db, a, b)` (its source is
outside the provided files) — "set-union normalized: Any absorbs; Unknown
is identity; duplicates collapsed; literal subsumption; flattens nested
unions".  The `db` argument is kept for signature fidelity and unused. -/
def TypeOps.Union.apply (_db : DbIndex) (a b : LuaType) : LuaType :=
  let parts := LuaType.flattenUnion a ++ LuaType.flattenUnion b
  if parts.any (fun t => match t with | .Any => true | _ => false) then .Any
  else
    let parts := parts.filter (fun t => !t.isUnknown)
    let parts := dedupTypes [] parts
    let parts := parts.filter (fun t => !literalSubsumed parts t)
    LuaType.fromVec parts

/-- Index keys, from `LuaIndexKey`.  The `expr` variant carries the
inference result of the key expression (`infer_expr` on it), abstracting
the expression syntax. -/
inductive LuaIndexKey where
  | name (s : String)
  | str (s : String)
  | integer (i : Int)
  | idx (n : Nat)
  | expr (t : Except InferFailReason LuaType)
deriving Repr

/-- `LuaIndexKey::is_integer`: an integer literal or positional index. -/
def LuaIndexKey.isInteger : LuaIndexKey → Bool
  | .integer _ => true
  | .idx _ => true
  | _ => false

/-- `LuaIndexKey::is_expr`. -/
def LuaIndexKey.isExpr : LuaIndexKey → Bool
  | .expr _ => true
  | _ => false

/-- Model of `LuaIndexMemberExpr`, the indexed-access argument of member
resolution.  `key` is `get_index_key()`; `isTableField` distinguishes the
`TableField` form from the `IndexExpr` form; `hasPrefixExpr` is whether
`get_prefix_expr()` returns a node; `enumVarIsParam` abstracts the
syntax-directed `enum_variable_is_param` detection (the spec's
"enum-by-variable defer"); `iterVarRangeOk` abstracts the syntax-directed
`check_iter_var_range` detection (the spec's "for i = 1, #arr" loop-bound
detection), `false` standing for `None`/`Some(false)`. -/
structure LuaIndexMemberExpr where
  key : Option LuaIndexKey
  isTableField : Bool
  hasPrefixExpr : Bool
  enumVarIsParam : Bool
  iterVarRangeOk : Bool
deriving Repr

/-- Modelled from the spec: `LuaMemberKey::from_index_key` (its source is
outside the provided files).  Name-like keys become `Name`, integer-like
keys become `Integer`, and an expression key becomes `ExprType` of its
inferred type, propagating the inference failure. -/
def LuaMemberKey.fromIndexKey : LuaIndexKey → Except InferFailReason LuaMemberKey
  | .name s => .ok (.name s)
  | .str s => .ok (.name s)
  | .integer i => .ok (.integer i)
  | .idx n => .ok (.integer (n : Int))
  | .expr (.ok t) => .ok (.exprType t)
  | .expr (.error r) => .error r

mutual

/-- Modelled from the spec: `check_type_compact(expected, actual)` (the
type-check module is outside the provided files) — "Any accepts anything;
literal-to-base accepted; union-of-actual requires all branches acceptable;
Ref(T) accepts Ref(S) iff S is a transitive super of T or equal"; equal
types are accepted.  A number literal or the integer primitive is accepted
by `Number`. -/
def check_type_compact (fuel : Nat) (db : DbIndex) (expected actual : LuaType) : Bool :=
  match fuel with
  | 0 => false
  | fuel + 1 =>
    match expected, actual with
    | .Any, _ => true
    | expected, .Union arms => checkTypeCompactAll fuel db expected arms
    | .Integer, .IntegerConst _ => true
    | .Integer, .DocIntegerConst _ => true
    | .Number, .IntegerConst _ => true
    | .Number, .DocIntegerConst _ => true
    | .Number, .Integer => true
    | .String, .StringConst _ => true
    | .String, .DocStringConst _ => true
    | .Ref t, .Ref s => (s == t) || isTransSuper fuel db s t
    | expected, actual => LuaType.beq expected actual

/-- All branches of a union of actuals must be acceptable. -/
def checkTypeCompactAll (fuel : Nat) (db : DbIndex) (expected : LuaType)
    (arms : List LuaType) : Bool :=
  match arms with
  | [] => true
  | a :: rest => check_type_compact fuel db expected a && checkTypeCompactAll fuel db expected rest

/-- Whether `sId` is a transitive super-type of `tId` in the type index. -/
def isTransSuper (fuel : Nat) (db : DbIndex) (sId tId : Nat) : Bool :=
  match fuel with
  | 0 => false
  | fuel + 1 =>
    match db.getSuperTypes tId with
    | Option.none => false
    | some supers => isTransSuperList fuel db sId supers

/-- Scan of a super-type list for a transitive super. -/
def isTransSuperList (fuel : Nat) (db : DbIndex) (sId : Nat) (l : List LuaType) : Bool :=
  match l with
  | [] => false
  | LuaType.Ref k :: rest =>
    (k == sId) || isTransSuper fuel db sId k || isTransSuperList fuel db sId rest
  | _ :: rest => isTransSuperList fuel db sId rest

end

/-- `infer_index_metamethod`: build the access key type from the index key
(propagating a failed key-expression inference) and return the operator's
value type when the operand accepts it. -/
def infer_index_metamethod (fuel : Nat) (db : DbIndex) (indexKey : LuaIndexKey)
    (keyType valueType : LuaType) : Except InferFailReason LuaType :=
  let accessKeyType : Except InferFailReason LuaType :=
    match indexKey with
    | .name s => .ok (.StringConst s)
    | .str s => .ok (.StringConst s)
    | .integer i => .ok (.IntegerConst i)
    | .idx n => .ok (.IntegerConst (n : Int))
    | .expr t => t
  match accessKeyType with
  | .error e => .error e
  | .ok a =>
    if check_type_compact fuel db keyType a then .ok valueType
    else .error .fieldNotFound

/-- `infer_table_member`: member lookup on an anonymous table element. -/
def infer_table_member (db : DbIndex) (range : Nat) (indexExpr : LuaIndexMemberExpr) :
    Except InferFailReason LuaType :=
  match indexExpr.key with
  | Option.none => .error .none
  | some indexKey =>
    match LuaMemberKey.fromIndexKey indexKey with
    | .error e => .error e
    | .ok key =>
      match db.getMemberItem (.element range) key with
      | some res => res
      | Option.none => .error .fieldNotFound

/-- `infer_tuple_member`: 1-indexed access for integer keys (non-positive
keys clamp to slot 0), union of all element types with `Nil` for a key of
the general `Integer` type. -/
def infer_tuple_member (db : DbIndex) (ts : List LuaType) (indexExpr : LuaIndexMemberExpr) :
    Except InferFailReason LuaType :=
  match indexExpr.key with
  | Option.none => .error .none
  | some indexKey =>
    match LuaMemberKey.fromIndexKey indexKey with
    | .error e => .error e
    | .ok key =>
      match key with
      | .integer i =>
        let index : Int := if i > 0 then i - 1 else 0
        match ts.get? index.toNat with
        | some t => .ok t
        | Option.none => .error .fieldNotFound
      | .exprType (.IntegerConst i) =>
        let index : Int := if i > 0 then i - 1 else 0
        match ts.get? index.toNat with
        | some t => .ok t
        | Option.none => .error .fieldNotFound
      | .exprType .Integer =>
        let result := ts.foldl (fun acc t => TypeOps.Union.apply db acc t) LuaType.Unknown
        .ok (TypeOps.Union.apply db result .Nil)
      | _ => .error .fieldNotFound

/-- `infer_array_member`: integer-literal keys check the declared bound in
strict mode; integer-typed expression keys additionally try the for-loop
bound detection; `Any`/`Unknown` bases are returned unchanged, other bases
are unioned with `Nil` when out of the provable bound in strict mode. -/
def infer_array_member (db : DbIndex) (base : LuaType) (len : LuaArrayLen)
    (indexExpr : LuaIndexMemberExpr) : Except InferFailReason LuaType :=
  match indexExpr.key with
  | Option.none => .error .none
  | some key =>
    if indexExpr.isTableField then .ok base
    else if !indexExpr.hasPrefixExpr then .error .none
    else
      match key with
      | .integer i =>
        if !db.strictArrayIndex then .ok base
        else
          let inBounds : Bool :=
            match len with
            | .Max maxLen => decide (i > 0) && decide (i ≤ maxLen)
            | .None => false
          if inBounds then .ok base
          else
            match base with
            | .Any => .ok base
            | .Unknown => .ok base
            | _ => .ok (TypeOps.Union.apply db base .Nil)
      | .expr et =>
        match et with
        | .error e => .error e
        | .ok exprType =>
          if exprType.isInteger then
            let constInBounds : Bool :=
              match len, exprType with
              | .Max maxLen, .IntegerConst v => decide (v > 0) && decide (v ≤ maxLen)
              | .Max maxLen, .DocIntegerConst v => decide (v > 0) && decide (v ≤ maxLen)
              | _, _ => false
            if constInBounds then .ok base
            else
              let iterOk : Bool :=
                match len, exprType with
                | .Max _, .IntegerConst _ => false
                | .Max _, .DocIntegerConst _ => false
                | _, _ => indexExpr.iterVarRangeOk
              if iterOk then .ok base
              else
                match base with
                | .Any => .ok base
                | .Unknown => .ok base
                | _ =>
                  if db.strictArrayIndex then .ok (TypeOps.Union.apply db base .Nil)
                  else .ok base
          else .error .fieldNotFound
      | _ => .error .fieldNotFound

/-- Insertion into the key accumulator, modelling the `HashSet` of
`expr_to_member_key` with deterministic insertion order. -/
def insertMemberKey (acc : List LuaMemberKey) (k : LuaMemberKey) : List LuaMemberKey :=
  if acc.any (fun j => j.beq k) then acc else acc ++ [k]

/-- Worklist loop of `expr_to_member_key`: walk the key expression's type,
collecting literal keys, pushing union arms, and turning table/tuple types
into an `ExprType` of the original type and enum/alias references into an
`ExprType` of the reference. -/
def exprToMemberKeyLoop (fuel : Nat) (db : DbIndex) (exprType : LuaType)
    (stack visitedStack : List LuaType) (acc : List LuaMemberKey) : List LuaMemberKey :=
  match fuel with
  | 0 => acc
  | fuel + 1 =>
    match stack with
    | [] => acc
    | current :: stack =>
      if visitedStack.any (fun u => LuaType.beq u current) then
        exprToMemberKeyLoop fuel db exprType stack visitedStack acc
      else
        let visitedStack := current :: visitedStack
        match current with
        | .StringConst s =>
          exprToMemberKeyLoop fuel db exprType stack visitedStack (insertMemberKey acc (.name s))
        | .DocStringConst s =>
          exprToMemberKeyLoop fuel db exprType stack visitedStack (insertMemberKey acc (.name s))
        | .IntegerConst i =>
          exprToMemberKeyLoop fuel db exprType stack visitedStack (insertMemberKey acc (.integer i))
        | .DocIntegerConst i =>
          exprToMemberKeyLoop fuel db exprType stack visitedStack (insertMemberKey acc (.integer i))
        | .Union ts =>
          exprToMemberKeyLoop fuel db exprType (ts.reverse ++ stack) visitedStack acc
        | .TableConst _ =>
          exprToMemberKeyLoop fuel db exprType stack visitedStack
            (insertMemberKey acc (.exprType exprType))
        | .Tuple _ =>
          exprToMemberKeyLoop fuel db exprType stack visitedStack
            (insertMemberKey acc (.exprType exprType))
        | .Ref id =>
          match db.getTypeDecl id with
          | some decl =>
            if decl.isEnum || decl.isAlias then
              exprToMemberKeyLoop fuel db exprType stack visitedStack
                (insertMemberKey acc (.exprType current))
            else exprToMemberKeyLoop fuel db exprType stack visitedStack acc
          | Option.none => exprToMemberKeyLoop fuel db exprType stack visitedStack acc
        | _ => exprToMemberKeyLoop fuel db exprType stack visitedStack acc

/-- `expr_to_member_key` applied to an already inferred key-expression
type. -/
def expr_to_member_key (fuel : Nat) (db : DbIndex) (exprType : LuaType) : List LuaMemberKey :=
  exprToMemberKeyLoop fuel db exprType [exprType] [] []

/-- Constant-key extraction over one enum member for `get_all_member_key`:
the member's cached type contributes its literal value as a key. -/
def enumMemberValueKeys (m : LuaMember) : List LuaMemberKey :=
  match m.typ with
  | .ok (.DocStringConst s) => [.name s]
  | .ok (.StringConst s) => [.name s]
  | .ok (.DocIntegerConst i) => [.integer i]
  | .ok (.IntegerConst i) => [.integer i]
  | _ => []

/-- Keys contributed by a list of enum members: the member keys themselves
for an enum-key enum, else the literal values of the member types. -/
def enumMembersKeys (isEnumKey : Bool) : List LuaMember → List LuaMemberKey
  | [] => []
  | m :: rest =>
    (if isEnumKey then [m.key] else enumMemberValueKeys m) ++ enumMembersKeys isEnumKey rest

/-- Worklist loop of `get_all_member_key`: collect literal keys from the
origin type; union arms push their `Ref` components; an enum reference
contributes its member keys (for enum-key enums) or its member literal
values.  The `MultiLineUnion` arm of the source is outside the modelled
type grammar. -/
def getAllMemberKeyLoop (fuel : Nat) (db : DbIndex)
    (stack visitedStack : List LuaType) (acc : List LuaMemberKey) : List LuaMemberKey :=
  match fuel with
  | 0 => acc
  | fuel + 1 =>
    match stack with
    | [] => acc
    | current :: stack =>
      if visitedStack.any (fun u => LuaType.beq u current) then
        getAllMemberKeyLoop fuel db stack visitedStack acc
      else
        let visitedStack := current :: visitedStack
        match current with
        | .Union ts =>
          let refs := ts.filter (fun t => match t with | .Ref _ => true | _ => false)
          getAllMemberKeyLoop fuel db (refs.reverse ++ stack) visitedStack acc
        | .Ref id =>
          match db.getTypeDecl id with
          | some decl =>
            if decl.isEnum then
              let ms := db.getMembers (.type id)
              getAllMemberKeyLoop fuel db stack visitedStack
                (acc ++ enumMembersKeys decl.isEnumKey ms)
            else getAllMemberKeyLoop fuel db stack visitedStack acc
          | Option.none => getAllMemberKeyLoop fuel db stack visitedStack acc
        | _ => getAllMemberKeyLoop fuel db stack visitedStack acc

/-- `get_all_member_key` on an origin type. -/
def get_all_member_key (fuel : Nat) (db : DbIndex) (originType : LuaType) : List LuaMemberKey :=
  getAllMemberKeyLoop fuel db [originType] [] []

/-- `get_expr_key_members`: for an `ExprType(Ref _)` key, resolve every key
of the referenced enum/alias against the owner's member table and combine
the found types. -/
def get_expr_key_members (fuel : Nat) (db : DbIndex) (key : LuaMemberKey)
    (owner : LuaMemberOwner) : Option LuaType :=
  match key with
  | .exprType (.Ref indexId) =>
    match db.getTypeDecl indexId with
    | Option.none => Option.none
    | some indexTypeDecl =>
      match (if indexTypeDecl.isAlias then indexTypeDecl.aliasOrigin
             else some (.Ref indexId)) with
      | Option.none => Option.none
      | some originType =>
        let memberKeys := get_all_member_key fuel db originType
        let result := memberKeys.filterMap (fun k =>
          match db.getMemberItem owner k with
          | some (.ok t) => some t
          | _ => Option.none)
        match result with
        | [] => Option.none
        | [t] => some t
        | ts => some (LuaType.fromVec ts)
  | _ => Option.none

/-- Per-key collection loop of the expression-key fallback in
`infer_custom_type_member`: an enum/class-indexed result wins over a plain
member lookup for each candidate key. -/
def exprKeyFallbackLoop (fuel : Nat) (db : DbIndex) (owner : LuaMemberOwner) :
    List LuaMemberKey → List LuaType
  | [] => []
  | k :: rest =>
    match get_expr_key_members fuel db k owner with
    | some t => t :: exprKeyFallbackLoop fuel db owner rest
    | Option.none =>
      match db.getMemberItem owner k with
      | some (.ok t) => t :: exprKeyFallbackLoop fuel db owner rest
      | _ => exprKeyFallbackLoop fuel db owner rest

/-- The expression-key fallback of `infer_custom_type_member` (its trailing
`if let LuaIndexKey::Expr` block): `none` when the fallback does not apply
or finds nothing. -/
def exprKeyFallback (fuel : Nat) (db : DbIndex) (owner : LuaMemberOwner)
    (indexKey : LuaIndexKey) : Option LuaType :=
  match indexKey with
  | .expr (.ok exprType) =>
    let keys := expr_to_member_key fuel db exprType
    let resultTypes := exprKeyFallbackLoop fuel db owner keys
    match resultTypes with
    | [] => Option.none
    | [t] => some t
    | ts => some (LuaType.fromVec ts)
  | _ => Option.none

/-- Modelled from the spec: the key-sort order of members used for the
deterministic key-by-type lookup on a table ("members are iterated in
key-sort order"): names before integers before type keys, names by string
order, integers by value. -/
def LuaMemberKey.leKey : LuaMemberKey → LuaMemberKey → Bool
  | .name s, .name t => decide (s ≤ t)
  | .name _, _ => true
  | .integer _, .name _ => false
  | .integer i, .integer j => decide (i ≤ j)
  | .integer _, .exprType _ => true
  | .exprType _, .exprType _ => true
  | .exprType _, _ => false

/-- Ordered insertion for the member sort. -/
def insertMemberSorted (m : LuaMember) : List LuaMember → List LuaMember
  | [] => [m]
  | n :: rest =>
    if m.key.leKey n.key then m :: n :: rest
    else n :: insertMemberSorted m rest

/-- Stable sort of members by key (`members.sort_by(... key cmp ...)`). -/
def sortMembersByKey : List LuaMember → List LuaMember
  | [] => []
  | m :: rest => insertMemberSorted m (sortMembersByKey rest)

/-- The cached type of a member
(`get_type_cache(member.id).map(as_type).unwrap_or(Unknown)`). -/
def memberCachedType (m : LuaMember) : LuaType :=
  match m.typ with
  | .ok t => t
  | .error _ => .Unknown

/-- Fuzzy fold of the metatable-less branch of
`infer_member_by_index_table`: union the types of all members whose
name/integer key is accepted by the key expression's type. -/
def fuzzyMemberFold (fuel : Nat) (db : DbIndex) (keyType : LuaType)
    (ms : List LuaMember) (acc : LuaType) : LuaType :=
  match ms with
  | [] => acc
  | m :: rest =>
    match (match m.key with
           | .name s => some (LuaType.StringConst s)
           | .integer i => some (LuaType.IntegerConst i)
           | _ => Option.none) with
    | Option.none => fuzzyMemberFold fuel db keyType rest acc
    | some memberKeyType =>
      if check_type_compact fuel db keyType memberKeyType then
        fuzzyMemberFold fuel db keyType rest
          (TypeOps.Union.apply db acc (memberCachedType m))
      else fuzzyMemberFold fuel db keyType rest acc

/-- `infer_member_by_index_table`: with a registered metatable, run its
`__index` operator chain (the source returns unconditionally on the first
operator); without one, fuzzy-match the element's members against an
expression key, adding `Nil` for open key types. -/
def infer_member_by_index_table (fuel : Nat) (db : DbIndex) (range : Nat)
    (indexExpr : LuaIndexMemberExpr) : Except InferFailReason LuaType :=
  match db.getMetatable range with
  | some metatable =>
    match db.getIndexOperators (.table metatable) with
    | Option.none => .error .fieldNotFound
    | some operators =>
      match indexExpr.key with
      | Option.none => .error .none
      | some indexKey =>
        match operators with
        | [] => .error .fieldNotFound
        | op :: _ =>
          match op.result with
          | .error e => .error e
          | .ok returnType =>
            match infer_index_metamethod fuel db indexKey op.operand returnType with
            | .ok t => .ok t
            | .error e => .error e
  | Option.none =>
    match indexExpr.key with
    | Option.none => .error .none
    | some (.expr et) =>
      match et with
      | .error e => .error e
      | .ok keyType =>
        let ms := db.getMembers (.element range)
        if ms.isEmpty then .error .fieldNotFound
        else
          let sorted := sortMembersByKey ms
          let resultType := fuzzyMemberFold fuel db keyType sorted .Unknown
          if resultType.isUnknown then .error .fieldNotFound
          else
            if (match keyType with
                | .String => true | .Number => true | .Integer => true | _ => false) then
              .ok (TypeOps.Union.apply db resultType .Nil)
            else .ok resultType
    | some _ => .error .fieldNotFound

/-- The operator loop of `infer_member_by_index_custom_type`: a failing
`get_result` aborts; the first metamethod accepting the key wins; a
rejecting metamethod is skipped.  `none` means the loop fell through. -/
def opMetamethodLoop (fuel : Nat) (db : DbIndex) (indexKey : LuaIndexKey) :
    List LuaOperator → Option (Except InferFailReason LuaType)
  | [] => Option.none
  | op :: rest =>
    match op.result with
    | .error e => some (.error e)
    | .ok returnType =>
      match infer_index_metamethod fuel db indexKey op.operand returnType with
      | .ok t => some (.ok t)
      | .error _ => opMetamethodLoop fuel db indexKey rest

/-- `infer_member_by_index_array`: any integer-literal key, or any
expression key whose type is accepted by `Number`, yields the base (unioned
with `Nil` in strict mode). -/
def infer_member_by_index_array (fuel : Nat) (db : DbIndex) (base : LuaType)
    (indexExpr : LuaIndexMemberExpr) : Except InferFailReason LuaType :=
  match indexExpr.key with
  | Option.none => .error .none
  | some memberKey =>
    let expressionType :=
      if db.strictArrayIndex then TypeOps.Union.apply db base .Nil else base
    if memberKey.isInteger then .ok expressionType
    else if memberKey.isExpr then
      match memberKey with
      | .expr (.error e) => .error e
      | .expr (.ok exprType) =>
        if check_type_compact fuel db .Number exprType then .ok expressionType
        else .error .fieldNotFound
      | _ => .error .fieldNotFound
    else .error .fieldNotFound

mutual

/-- `infer_member_by_member_key`: structural dispatch of the declared-member
route over the prefix type.  Returns the result together with the updated
re-entry guard (the Rust functions share one `&mut InferGuard`). -/
def infer_member_by_member_key (fuel : Nat) (db : DbIndex) (prefixType : LuaType)
    (indexExpr : LuaIndexMemberExpr) (g : InferGuard) :
    (Except InferFailReason LuaType) × InferGuard :=
  match fuel with
  | 0 => (.error .none, g)
  | fuel + 1 =>
    match prefixType with
    | .Table => (.ok .Any, g)
    | .Any => (.ok .Any, g)
    | .Unknown => (.ok .Any, g)
    | .TableConst range => (infer_table_member db range indexExpr, g)
    | .String =>
      match db.stringDeclId with
      | Option.none => (.error .none, g)
      | some declId => infer_custom_type_member fuel db declId indexExpr g
    | .StringConst _ =>
      match db.stringDeclId with
      | Option.none => (.error .none, g)
      | some declId => infer_custom_type_member fuel db declId indexExpr g
    | .DocStringConst _ =>
      match db.stringDeclId with
      | Option.none => (.error .none, g)
      | some declId => infer_custom_type_member fuel db declId indexExpr g
    | .Ref declId => infer_custom_type_member fuel db declId indexExpr g
    | .Def declId => infer_custom_type_member fuel db declId indexExpr g
    | .Tuple ts => (infer_tuple_member db ts indexExpr, g)
    | .Union ts => (infer_union_member fuel db ts indexExpr, g)
    | .Intersection ts => (infer_intersection_member fuel db ts indexExpr, g)
    | .Instance base range => infer_instance_member fuel db base range indexExpr g
    | .Array base len => (infer_array_member db base len indexExpr, g)
    | _ => (.error .fieldNotFound, g)
termination_by (fuel, 0)

/-- `infer_custom_type_member`: guard against re-entry, chase an alias
origin, defer the enum-by-variable pattern, consult the type's own member
table, then its super-types left-to-right, and finally the expression-key
fallback. -/
def infer_custom_type_member (fuel : Nat) (db : DbIndex) (declId : Nat)
    (indexExpr : LuaIndexMemberExpr) (g : InferGuard) :
    (Except InferFailReason LuaType) × InferGuard :=
  match fuel with
  | 0 => (.error .none, g)
  | fuel + 1 =>
    match g.check declId with
    | .error e => (.error e, g)
    | .ok g1 =>
      match db.getTypeDecl declId with
      | Option.none => (.error .none, g1)
      | some typeDecl =>
        if typeDecl.isAlias then
          match typeDecl.aliasOrigin with
          | some originType => infer_member_by_member_key fuel db originType indexExpr g1
          | Option.none => (.error .fieldNotFound, g1)
        else if !indexExpr.isTableField && indexExpr.enumVarIsParam then (.error .none, g1)
        else
          match indexExpr.key with
          | Option.none => (.error .none, g1)
          | some indexKey =>
            match LuaMemberKey.fromIndexKey indexKey with
            | .error e => (.error e, g1)
            | .ok key =>
              match db.getMemberItem (.type declId) key with
              | some res => (res, g1)
              | Option.none =>
                match (if typeDecl.isClass then
                         match db.getSuperTypes declId with
                         | some supers => forSupersKey fuel db supers indexExpr g1
                         | Option.none => (Option.none, g1)
                       else (Option.none, g1)) with
                | (some r, g2) => (r, g2)
                | (Option.none, g2) =>
                  match exprKeyFallback fuel db (.type declId) indexKey with
                  | some t => (.ok t, g2)
                  | Option.none => (.error .fieldNotFound, g2)
termination_by (fuel, 0)

/-- The super-type loop of `infer_custom_type_member`: the first super that
resolves (or hard-fails) wins; a `FieldNotFound` super is skipped.  `none`
means the whole loop fell through. -/
def forSupersKey (fuel : Nat) (db : DbIndex) (supers : List LuaType)
    (indexExpr : LuaIndexMemberExpr) (g : InferGuard) :
    Option (Except InferFailReason LuaType) × InferGuard :=
  match supers with
  | [] => (Option.none, g)
  | superType :: rest =>
    match infer_member_by_member_key fuel db superType indexExpr g with
    | (.ok v, g2) => (some (.ok v), g2)
    | (.error .fieldNotFound, g2) => forSupersKey fuel db rest indexExpr g2
    | (.error e, g2) => (some (.error e), g2)
termination_by (fuel, supers.length + 1)

/-- `infer_union_member`: the union of the successful non-`Nil` arm
resolutions; never a failure. -/
def infer_union_member (fuel : Nat) (db : DbIndex) (ts : List LuaType)
    (indexExpr : LuaIndexMemberExpr) : Except InferFailReason LuaType :=
  .ok (LuaType.fromVec (unionMemberCollect fuel db ts indexExpr))
termination_by (fuel, ts.length + 2)

/-- Arm collection loop of `infer_union_member`: each arm is resolved with
a fresh guard; failures and `Nil` results are dropped. -/
def unionMemberCollect (fuel : Nat) (db : DbIndex) (ts : List LuaType)
    (indexExpr : LuaIndexMemberExpr) : List LuaType :=
  match ts with
  | [] => []
  | t :: rest =>
    match (infer_member_by_member_key fuel db t indexExpr InferGuard.new).1 with
    | .ok typ =>
      if typ.isNil then unionMemberCollect fuel db rest indexExpr
      else typ :: unionMemberCollect fuel db rest indexExpr
    | .error _ => unionMemberCollect fuel db rest indexExpr
termination_by (fuel, ts.length + 1)

/-- `infer_intersection_member`: the first arm that resolves wins; a
`FieldNotFound` arm is skipped; other failures propagate. -/
def infer_intersection_member (fuel : Nat) (db : DbIndex) (ts : List LuaType)
    (indexExpr : LuaIndexMemberExpr) : Except InferFailReason LuaType :=
  match ts with
  | [] => .error .fieldNotFound
  | t :: rest =>
    match (infer_member_by_member_key fuel db t indexExpr InferGuard.new).1 with
    | .ok typ => .ok typ
    | .error .fieldNotFound => infer_intersection_member fuel db rest indexExpr
    | .error e => .error e
termination_by (fuel, ts.length + 1)

/-- `infer_instance_member`: resolve in the base type first, fall back to
the anonymous element's member table on `FieldNotFound`. -/
def infer_instance_member (fuel : Nat) (db : DbIndex) (base : LuaType) (range : Nat)
    (indexExpr : LuaIndexMemberExpr) (g : InferGuard) :
    (Except InferFailReason LuaType) × InferGuard :=
  match fuel with
  | 0 => (.error .none, g)
  | fuel + 1 =>
    match infer_member_by_member_key fuel db base indexExpr g with
    | (.ok t, g2) => (.ok t, g2)
    | (.error .fieldNotFound, g2) => (infer_table_member db range indexExpr, g2)
    | (.error e, g2) => (.error e, g2)
termination_by (fuel, 0)

end

mutual

/-- `infer_member_by_operator`: structural dispatch of the operator
(`__index` metamethod) route over the prefix type. -/
def infer_member_by_operator (fuel : Nat) (db : DbIndex) (prefixType : LuaType)
    (indexExpr : LuaIndexMemberExpr) (g : InferGuard) :
    (Except InferFailReason LuaType) × InferGuard :=
  match fuel with
  | 0 => (.error .none, g)
  | fuel + 1 =>
    match prefixType with
    | .TableConst range => (infer_member_by_index_table fuel db range indexExpr, g)
    | .Ref declId => infer_member_by_index_custom_type fuel db declId indexExpr g
    | .Def declId => infer_member_by_index_custom_type fuel db declId indexExpr g
    | .Array base _ => (infer_member_by_index_array fuel db base indexExpr, g)
    | .Union ts => (infer_member_by_index_union fuel db ts indexExpr .Unknown, g)
    | .Intersection ts => (infer_member_by_index_intersection fuel db ts indexExpr, g)
    | .Instance base _ => infer_member_by_operator fuel db base indexExpr g
    | _ => (.error .fieldNotFound, g)
termination_by (fuel, 0)

/-- `infer_member_by_index_custom_type`: guard against re-entry, chase an
alias origin, run the type's own `__index` operator chain, then recurse
into the super-types left-to-right. -/
def infer_member_by_index_custom_type (fuel : Nat) (db : DbIndex) (declId : Nat)
    (indexExpr : LuaIndexMemberExpr) (g : InferGuard) :
    (Except InferFailReason LuaType) × InferGuard :=
  match fuel with
  | 0 => (.error .none, g)
  | fuel + 1 =>
    match g.check declId with
    | .error e => (.error e, g)
    | .ok g1 =>
      match db.getTypeDecl declId with
      | Option.none => (.error .none, g1)
      | some typeDecl =>
        if typeDecl.isAlias then
          match typeDecl.aliasOrigin with
          | some originType => infer_member_by_operator fuel db originType indexExpr g1
          | Option.none => (.error .none, g1)
        else
          match indexExpr.key with
          | Option.none => (.error .none, g1)
          | some indexKey =>
            match (match db.getIndexOperators (.type declId) with
                   | some operators => opMetamethodLoop fuel db indexKey operators
                   | Option.none => Option.none) with
            | some r => (r, g1)
            | Option.none =>
              match (if typeDecl.isClass then
                       match db.getSuperTypes declId with
                       | some supers => forSupersOp fuel db supers indexExpr g1
                       | Option.none => (Option.none, g1)
                     else (Option.none, g1)) with
              | (some r, g2) => (r, g2)
              | (Option.none, g2) => (.error .fieldNotFound, g2)
termination_by (fuel, 0)

/-- The super-type loop of the operator route: the first super that
resolves (or hard-fails) wins; a `FieldNotFound` super is skipped. -/
def forSupersOp (fuel : Nat) (db : DbIndex) (supers : List LuaType)
    (indexExpr : LuaIndexMemberExpr) (g : InferGuard) :
    Option (Except InferFailReason LuaType) × InferGuard :=
  match supers with
  | [] => (Option.none, g)
  | superType :: rest =>
    match infer_member_by_operator fuel db superType indexExpr g with
    | (.ok v, g2) => (some (.ok v), g2)
    | (.error .fieldNotFound, g2) => forSupersOp fuel db rest indexExpr g2
    | (.error e, g2) => (some (.error e), g2)
termination_by (fuel, supers.length + 1)

/-- `infer_member_by_index_union`: fold the operator results of the arms
with the union operation (each arm under a fresh guard); `FieldNotFound`
arms are skipped, other failures propagate, and an entirely unknown
accumulator fails with `FieldNotFound`. -/
def infer_member_by_index_union (fuel : Nat) (db : DbIndex) (ts : List LuaType)
    (indexExpr : LuaIndexMemberExpr) (acc : LuaType) : Except InferFailReason LuaType :=
  match ts with
  | [] => if acc.isUnknown then .error .fieldNotFound else .ok acc
  | t :: rest =>
    match (infer_member_by_operator fuel db t indexExpr InferGuard.new).1 with
    | .ok typ => infer_member_by_index_union fuel db rest indexExpr (TypeOps.Union.apply db acc typ)
    | .error .fieldNotFound => infer_member_by_index_union fuel db rest indexExpr acc
    | .error e => .error e
termination_by (fuel, ts.length + 1)

/-- `infer_member_by_index_intersection`: the first arm whose operator
route resolves wins; a `FieldNotFound` arm is skipped. -/
def infer_member_by_index_intersection (fuel : Nat) (db : DbIndex) (ts : List LuaType)
    (indexExpr : LuaIndexMemberExpr) : Except InferFailReason LuaType :=
  match ts with
  | [] => .error .fieldNotFound
  | t :: rest =>
    match (infer_member_by_operator fuel db t indexExpr InferGuard.new).1 with
    | .ok typ => .ok typ
    | .error .fieldNotFound => infer_member_by_index_intersection fuel db rest indexExpr
    | .error e => .error e
termination_by (fuel, ts.length + 1)

end

/-- `infer_index_expr` (with `pass_flow = false`, flow narrowing being out
of the modelled scope): the declared-member route is consulted first with a
fresh guard; only on its `FieldNotFound` is the operator route consulted,
whose result then decides the outcome. -/
def infer_index_expr (fuel : Nat) (db : DbIndex) (prefixType : LuaType)
    (indexExpr : LuaIndexMemberExpr) : Except InferFailReason LuaType :=
  match (infer_member_by_member_key fuel db prefixType indexExpr InferGuard.new).1 with
  | .ok v => .ok v
  | .error .fieldNotFound =>
    match (infer_member_by_operator fuel db prefixType indexExpr InferGuard.new).1 with
    | .ok v => .ok v
    | .error .fieldNotFound => .error .fieldNotFound
    | .error e => .error e
  | .error e => .error e

/-- One value expression of a local statement, as seen by the lua-pass
analyzer: the result of `analyzer.infer_expr` on it, and whether
`call_expr_has_effect_table_arg` holds (the expression is a call with a
non-empty table argument). -/
structure LocalExprInfo where
  ty : Except InferFailReason LuaType
  hasEffectTableArg : Bool
deriving Repr

/-- Outcome recorded for one name of a local statement: a bound type
(`bind_type` with `InferType`), a queued `UnResolveDecl` work item with its
`ret_idx`, or no binding at all. -/
inductive NameBind where
  | typed (t : LuaType)
  | unresolved (retIdx : Nat)
  | unbound
deriving Repr

/-- Equality of name-binding outcomes. -/
def NameBind.beq : NameBind → NameBind → Bool
  | .typed t, .typed u => LuaType.beq t u
  | .unresolved i, .unresolved j => i == j
  | .unbound, .unbound => true
  | _, _ => false

/-- The per-name step of the main loop of `analyze_local_stat`: an
`Instance` with an unknown base coming from a call with a pending table
argument is deferred as `UnResolveDecl`, any other type is bound. -/
def localStatStep (e : LocalExprInfo) (t : LuaType) : NameBind :=
  match t with
  | .Instance base range =>
    if base.isUnknown && e.hasEffectTableArg then .unresolved 0
    else .typed (.Instance base range)
  | t => .typed t

/-- The main loop of `analyze_local_stat` over the first
`min(names, exprs)` positions.  The boolean is `true` when the loop aborted
the whole statement analysis (the `?` on `multi.get_type(0)` of an empty
`Variadic`), in which case no later binding is written. -/
def localStatLoop (names : Nat) (exprs : List LocalExprInfo) : List NameBind × Bool :=
  match names, exprs with
  | 0, _ => ([], false)
  | _ + 1, [] => ([], false)
  | names + 1, e :: rest =>
    match e.ty with
    | .ok t =>
      match t with
      | .Variadic ts =>
        match ts.get? 0 with
        | Option.none => ([], true)
        | some t0 =>
          let r := localStatLoop names rest
          (localStatStep e t0 :: r.1, r.2)
      | t =>
        let r := localStatLoop names rest
        (localStatStep e t :: r.1, r.2)
    | .error .none =>
      let r := localStatLoop names rest
      (.typed .Nil :: r.1, r.2)
    | .error _ =>
      let r := localStatLoop names rest
      (.unresolved 0 :: r.1, r.2)

/-- `analyze_local_stat` on `local a₁,…,aₙ = e₁,…,eₘ`, producing the
binding outcome of each name in order.  With no value expressions every
name binds to `Nil`; otherwise the main loop handles the first `min(n,m)`
names, and with `n > m` the tail names draw from a `Variadic` last
expression (`Unknown` beyond its length), are queued unresolved when the
last expression's inference failed, and are left unbound otherwise. -/
def analyze_local_stat (names : Nat) (exprs : List LocalExprInfo) : List NameBind :=
  if exprs.length = 0 then List.replicate names (.typed .Nil)
  else
    let m := exprs.length
    let r := localStatLoop names exprs
    if r.2 then r.1 ++ List.replicate (names - r.1.length) .unbound
    else if m < names then
      match exprs.getLast? with
      | Option.none => r.1
      | some lastExpr =>
        match lastExpr.ty with
        | .ok (.Variadic ts) =>
          r.1 ++ (List.range (names - m)).map (fun j =>
            match ts.get? (j + 1) with
            | some t => NameBind.typed t
            | Option.none => NameBind.typed .Unknown)
        | .ok _ => r.1 ++ List.replicate (names - m) .unbound
        | .error _ => r.1 ++ (List.range (names - m)).map (fun j => NameBind.unresolved (j + 1))
    else r.1

/-- One configured glob pattern of the workspace loader, abstracted to its
validity and the set of relative paths it matches (glob syntax being an
external collaborator, `wax`). -/
structure GlobPattern where
  valid : Bool
  matched : List String
deriving DecidableEq, Repr

/-- Model of `wax::any` over a pattern list: compiling the combined matcher
fails when any single pattern is invalid. -/
def wax_any (ps : List GlobPattern) : Option (List GlobPattern) :=
  if ps.all (·.valid) then some ps else Option.none

/-- Whether a compiled `wax::any` matcher matches a relative path. -/
def globAnyMatch (ps : List GlobPattern) (path : String) : Bool :=
  ps.any (fun g => path ∈ g.matched)

/-- `load_workspace_files` over an abstract directory walk.  `files` lists
the relative paths of the regular files under the root in walk order; file
reading and decoding are abstracted as always succeeding (they do not
affect which paths are considered).  `none` models the panic of the
`.unwrap()` on an invalid force-include glob; an invalid include or exclude
glob set is logged and yields `Ok` with the (still empty) file list. -/
def load_workspace_files (files : List String)
    (includePatterns excludePatterns : List GlobPattern)
    (excludeDirs : List String) (forceIncludeGlobs : List GlobPattern) :
    Option (List String) :=
  match wax_any includePatterns with
  | Option.none => some []
  | some includeSet =>
    match wax_any excludePatterns with
    | Option.none => some []
    | some excludeSet =>
      match wax_any forceIncludeGlobs with
      | Option.none => Option.none
      | some forceInclude =>
        some (files.filter (fun path =>
          if (globAnyMatch excludeSet path
                || excludeDirs.any (fun d => d.isPrefixOf path))
              && !globAnyMatch forceInclude path then false
          else globAnyMatch includeSet path))

/-- `encoding_default` of the workspace configuration. -/
def encoding_default : String := "utf-8"

/-- `reindex_duration_default` of the workspace configuration: the serde
default of `workspace.reindexDuration`. -/
def reindex_duration_default : Nat := 5000

/-- `enable_reindex_default` of the workspace configuration. -/
def enable_reindex_default : Bool := false

/-- The `EmmyrcWorkspace` configuration section (regex-based maps kept as
plain string pairs). -/
structure EmmyrcWorkspace where
  ignore_dir : List String
  ignore_globs : List String
  force_include_path_globs : List String
  library : List String
  workspace_roots : List String
  preload_file_size : Int
  encoding : String
  module_map : List (String × String)
  workspace_prefix_map : List (String × String)
  reindex_duration : Nat
  enable_reindex : Bool
deriving DecidableEq, Repr

/-- `impl Default for EmmyrcWorkspace`. -/
def EmmyrcWorkspace.default : EmmyrcWorkspace where
  ignore_dir := []
  ignore_globs := []
  force_include_path_globs := []
  library := []
  workspace_roots := []
  preload_file_size := 0
  encoding := encoding_default
  module_map := []
  workspace_prefix_map := []
  reindex_duration := 5000
  enable_reindex := false

/-- Model of serde deserialization of the `reindexDuration` field under
`#[serde(default = "reindex_duration_default")]`: an absent key takes the
named default. -/
def deserialize_reindex_duration (v : Option Nat) : Nat :=
  v.getD reindex_duration_default

/-- An empty database with `strict.arrayIndex` enabled, for concrete
instantiations. -/
def strictDb : DbIndex :=
  ⟨[], [], [], [], [], true, Option.none⟩

/-- An empty database with `strict.arrayIndex` disabled, for concrete
instantiations. -/
def nonStrictDb : DbIndex :=
  ⟨[], [], [], [], [], false, Option.none⟩

/-- C8: when the `workspace.reindexDuration` configuration key is absent,
its default value — the debounce delay of a re-index request — is 5000
milliseconds. -/
theorem c8_reindex_duration_default :
    reindex_duration_default = 5000 ∧
    deserialize_reindex_duration Option.none = 5000 ∧
    EmmyrcWorkspace.default.reindex_duration = 5000 :=
  ⟨rfl, rfl, rfl⟩

/-- C9: on a non-empty tuple, an integer key `i ≤ 0` — whether an integer
literal or a constant-integer-typed expression — is clamped to slot 0 and
resolves to the first element type instead of failing. -/
theorem c9_tuple_nonpositive_key_clamps (db : DbIndex) (t : LuaType)
    (rest : List LuaType) (indexExpr : LuaIndexMemberExpr) (i : Int) (hi : i ≤ 0) :
    (indexExpr.key = some (.integer i) →
      infer_tuple_member db (t :: rest) indexExpr = .ok t) ∧
    (indexExpr.key = some (.expr (.ok (.IntegerConst i))) →
      infer_tuple_member db (t :: rest) indexExpr = .ok t) := by
  have hle : ¬ (i > 0) := by omega
  constructor <;> intro hk <;>
    simp [infer_tuple_member, hk, LuaMemberKey.fromIndexKey, hle]

/-- Witness for C9 at the concrete keys `0` (literal) and `-3`
(constant-typed expression) on the tuple `[Integer]`. -/
theorem c9_tuple_nonpositive_key_clamps_witness :
    infer_tuple_member strictDb [.Integer]
      ⟨some (.integer 0), false, true, false, false⟩ = .ok .Integer ∧
    infer_tuple_member strictDb [.Integer]
      ⟨some (.expr (.ok (.IntegerConst (-3)))), false, true, false, false⟩ = .ok .Integer :=
  ⟨(c9_tuple_nonpositive_key_clamps strictDb .Integer [] _ 0 (by norm_num)).1 rfl,
   (c9_tuple_nonpositive_key_clamps strictDb .Integer [] _ (-3) (by norm_num)).2 rfl⟩

/-- C2: member resolution treats the definition form `Def(T)` and the
reference form `Ref(T)` of a nominal type identically, on the
declared-member route, on the operator route, and for the combined index
resolution. -/
theorem c2_def_ref_member_resolution_agree (fuel : Nat) (db : DbIndex) (id : Nat)
    (indexExpr : LuaIndexMemberExpr) (g : InferGuard) :
    infer_member_by_member_key fuel db (.Def id) indexExpr g
      = infer_member_by_member_key fuel db (.Ref id) indexExpr g ∧
    infer_member_by_operator fuel db (.Def id) indexExpr g
      = infer_member_by_operator fuel db (.Ref id) indexExpr g ∧
    infer_index_expr fuel db (.Def id) indexExpr
      = infer_index_expr fuel db (.Ref id) indexExpr := by
  have h1 : infer_member_by_member_key fuel db (.Def id) indexExpr g
      = infer_member_by_member_key fuel db (.Ref id) indexExpr g := by
    cases fuel <;> simp [infer_member_by_member_key]
  have h2 : infer_member_by_operator fuel db (.Def id) indexExpr g
      = infer_member_by_operator fuel db (.Ref id) indexExpr g := by
    cases fuel <;> simp [infer_member_by_operator]
  have h1n : ∀ g' : InferGuard, infer_member_by_member_key fuel db (.Def id) indexExpr g'
      = infer_member_by_member_key fuel db (.Ref id) indexExpr g' := by
    intro g'; cases fuel <;> simp [infer_member_by_member_key]
  have h2n : ∀ g' : InferGuard, infer_member_by_operator fuel db (.Def id) indexExpr g'
      = infer_member_by_operator fuel db (.Ref id) indexExpr g' := by
    intro g'; cases fuel <;> simp [infer_member_by_operator]
  refine ⟨h1, h2, ?_⟩
  simp [infer_index_expr, h1n InferGuard.new, h2n InferGuard.new]

/-- The arm-collection loop of `infer_union_member` collects exactly the
successful, non-`Nil` sub-resolutions of the arms, each under a fresh
guard. -/
theorem unionMemberCollect_eq_filterMap (fuel : Nat) (db : DbIndex)
    (indexExpr : LuaIndexMemberExpr) :
    ∀ ts : List LuaType,
      unionMemberCollect fuel db ts indexExpr = ts.filterMap (fun t =>
        match (infer_member_by_member_key fuel db t indexExpr InferGuard.new).1 with
        | .ok v => if v.isNil then Option.none else some v
        | .error _ => Option.none) := by
  intro ts
  induction ts with
  | nil => simp [unionMemberCollect]
  | cons t rest ih =>
    rw [unionMemberCollect]
    rcases h : (infer_member_by_member_key fuel db t indexExpr InferGuard.new).1 with e | v
    · simp [h, ih]
    · cases he : v.isNil <;> simp [h, he, ih]

/-- C3: declared-key member resolution on a union type never fails: it
returns the union (via `from_vec`) of the successful sub-resolutions of
the arms, dropping `Nil`-typed arms; a failing arm is simply skipped. -/
theorem c3_union_member_resolution (fuel : Nat) (db : DbIndex) (arms : List LuaType)
    (indexExpr : LuaIndexMemberExpr) (g : InferGuard) :
    infer_member_by_member_key (fuel + 1) db (.Union arms) indexExpr g
      = (.ok (LuaType.fromVec (arms.filterMap (fun t =>
          match (infer_member_by_member_key fuel db t indexExpr InferGuard.new).1 with
          | .ok v => if v.isNil then Option.none else some v
          | .error _ => Option.none))), g) ∧
    ∃ v, (infer_member_by_member_key (fuel + 1) db (.Union arms) indexExpr g).1 = .ok v := by
  have h : infer_member_by_member_key (fuel + 1) db (.Union arms) indexExpr g
      = (.ok (LuaType.fromVec (unionMemberCollect fuel db arms indexExpr)), g) := by
    simp [infer_member_by_member_key, infer_union_member]
  rw [unionMemberCollect_eq_filterMap] at h
  exact ⟨h, _, by rw [h]⟩

/-- Counterexample to C4: in strict mode, the bounded array over the base
`Unknown` with integer-literal key `1` yields `Unknown` itself, while the
claimed `Unknown ∪ Nil` is `Nil` under the union algebra (`Unknown` is the
identity of the union). -/
theorem c4_counterexample :
    infer_array_member strictDb .Unknown (.Max 0)
      ⟨some (.integer 1), false, true, false, false⟩ = .ok .Unknown ∧
    TypeOps.Union.apply strictDb .Unknown .Nil = .Nil ∧
    (Except.ok LuaType.Unknown ≠ (.ok .Nil : Except InferFailReason LuaType)) := by
  refine ⟨?_, ?_, ?_⟩
  · simp [infer_array_member, strictDb]
  · simp [TypeOps.Union.apply, LuaType.flattenUnion, LuaType.isUnknown, dedupTypes,
      literalSubsumed, LuaType.fromVec]
  · simp

/-- C4 (amended): with `strict.arrayIndex` enabled, `Array(b, Max(0))` with
integer-literal key `1` yields `b ∪ Nil` for every base `b` other than
`Any` and `Unknown`, and yields `b` unchanged for those two bases; with the
option disabled it yields `b` for every base. -/
theorem c4_array_max0_key1 (db : DbIndex) (b : LuaType) (ev iv : Bool) :
    (db.strictArrayIndex = true → b ≠ .Any → b ≠ .Unknown →
      infer_array_member db b (.Max 0) ⟨some (.integer 1), false, true, ev, iv⟩
        = .ok (TypeOps.Union.apply db b .Nil)) ∧
    (db.strictArrayIndex = true → (b = .Any ∨ b = .Unknown) →
      infer_array_member db b (.Max 0) ⟨some (.integer 1), false, true, ev, iv⟩ = .ok b) ∧
    (db.strictArrayIndex = false →
      infer_array_member db b (.Max 0) ⟨some (.integer 1), false, true, ev, iv⟩ = .ok b) := by
  refine ⟨?_, ?_, ?_⟩
  · intro hs hAny hUnknown
    cases b <;> simp_all [infer_array_member]
  · intro hs hb
    rcases hb with hb | hb <;> subst hb <;> simp [infer_array_member, hs]
  · intro hs
    simp [infer_array_member, hs]

/-- Witness for C4 (amended) at the base `Integer` (strict), the base `Any`
(strict) and the base `Integer` (non-strict). -/
theorem c4_array_max0_key1_witness :
    infer_array_member strictDb .Integer (.Max 0)
      ⟨some (.integer 1), false, true, false, false⟩
        = .ok (TypeOps.Union.apply strictDb .Integer .Nil) ∧
    infer_array_member strictDb .Any (.Max 0)
      ⟨some (.integer 1), false, true, false, false⟩ = .ok .Any ∧
    infer_array_member nonStrictDb .Integer (.Max 0)
      ⟨some (.integer 1), false, true, false, false⟩ = .ok .Integer :=
  ⟨(c4_array_max0_key1 strictDb .Integer false false).1 rfl (by simp) (by simp),
   (c4_array_max0_key1 strictDb .Any false false).2.1 rfl (Or.inl rfl),
   (c4_array_max0_key1 nonStrictDb .Integer false false).2.2 rfl⟩

/-- Counterexample to C5: on the empty tuple, an expression key of the
general `Integer` type does not yield `FieldNotFound` — it yields
`Ok(Nil)`, the union of no element types with `Nil`. -/
theorem c5_counterexample :
    infer_tuple_member strictDb []
      ⟨some (.expr (.ok .Integer)), false, true, false, false⟩ = .ok .Nil ∧
    ((.ok .Nil : Except InferFailReason LuaType) ≠ .error .fieldNotFound) := by
  constructor
  · simp [infer_tuple_member, LuaMemberKey.fromIndexKey, TypeOps.Union.apply,
      LuaType.flattenUnion, LuaType.isUnknown, dedupTypes, literalSubsumed, LuaType.fromVec]
  · simp

/-- C5 (amended): the empty tuple yields `FieldNotFound` for
integer-literal keys, for constant-integer-typed expression keys and for
name keys; an expression key of the general `Integer` type instead yields
`Nil` (the `Nil`-extended union of no element types). -/
theorem c5_empty_tuple (db : DbIndex) (indexExpr : LuaIndexMemberExpr) :
    (∀ i : Int, indexExpr.key = some (.integer i) →
      infer_tuple_member db [] indexExpr = .error .fieldNotFound) ∧
    (∀ i : Int, indexExpr.key = some (.expr (.ok (.IntegerConst i))) →
      infer_tuple_member db [] indexExpr = .error .fieldNotFound) ∧
    (∀ s : String, indexExpr.key = some (.name s) →
      infer_tuple_member db [] indexExpr = .error .fieldNotFound) ∧
    (indexExpr.key = some (.expr (.ok .Integer)) →
      infer_tuple_member db [] indexExpr = .ok .Nil) := by
  refine ⟨?_, ?_, ?_, ?_⟩
  · intro i hk
    simp [infer_tuple_member, hk, LuaMemberKey.fromIndexKey]
  · intro i hk
    simp [infer_tuple_member, hk, LuaMemberKey.fromIndexKey]
  · intro s hk
    simp [infer_tuple_member, hk, LuaMemberKey.fromIndexKey]
  · intro hk
    simp [infer_tuple_member, hk, LuaMemberKey.fromIndexKey, TypeOps.Union.apply,
      LuaType.flattenUnion, LuaType.isUnknown, dedupTypes, literalSubsumed, LuaType.fromVec]

/-- Witness for C5 (amended) at the keys `2` (literal), `0`
(constant-typed expression), `"x"` (name) and the general `Integer`
expression key. -/
theorem c5_empty_tuple_witness :
    infer_tuple_member strictDb []
      ⟨some (.integer 2), false, true, false, false⟩ = .error .fieldNotFound ∧
    infer_tuple_member strictDb []
      ⟨some (.expr (.ok (.IntegerConst 0))), false, true, false, false⟩
        = .error .fieldNotFound ∧
    infer_tuple_member strictDb []
      ⟨some (.name "x"), false, true, false, false⟩ = .error .fieldNotFound ∧
    infer_tuple_member strictDb []
      ⟨some (.expr (.ok .Integer)), false, true, false, false⟩ = .ok .Nil :=
  ⟨(c5_empty_tuple strictDb _).1 2 rfl,
   (c5_empty_tuple strictDb _).2.1 0 rfl,
   (c5_empty_tuple strictDb _).2.2.1 "x" rfl,
   (c5_empty_tuple strictDb _).2.2.2 rfl⟩

/-- C10: on an array whose base is `Any` or `Unknown`, member resolution
with an integer key — literal or integer-typed expression — returns the
base alone, with `Nil` never unioned in, for every strictness setting,
every declared length and every index value. -/
theorem c10_array_any_unknown_base (db : DbIndex) (len : LuaArrayLen) (i : Int)
    (et : LuaType) (ev iv : Bool) (b : LuaType)
    (hb : b = .Any ∨ b = .Unknown) (het : et.isInteger = true) :
    infer_array_member db b len ⟨some (.integer i), false, true, ev, iv⟩ = .ok b ∧
    infer_array_member db b len ⟨some (.expr (.ok et)), false, true, ev, iv⟩ = .ok b := by
  rcases hb with hb | hb <;> subst hb <;> constructor <;>
    simp [infer_array_member, het]

/-- Witness for C10 at strict mode, declared bound `Max 0`, the
out-of-bound literal key `5` and the out-of-bound constant-typed
expression key `99`, for both special bases. -/
theorem c10_array_any_unknown_base_witness :
    infer_array_member strictDb .Any (.Max 0)
      ⟨some (.integer 5), false, true, false, false⟩ = .ok .Any ∧
    infer_array_member strictDb .Unknown (.Max 0)
      ⟨some (.expr (.ok (.IntegerConst 99))), false, true, false, false⟩ = .ok .Unknown :=
  ⟨(c10_array_any_unknown_base strictDb (.Max 0) 5 (.IntegerConst 99) false false
      .Any (Or.inl rfl) rfl).1,
   (c10_array_any_unknown_base strictDb (.Max 0) 5 (.IntegerConst 99) false false
      .Unknown (Or.inr rfl) rfl).2⟩

/-- C1: ordering of member resolution on a nominal type.  The
declared-member route decides the result whenever it succeeds; only on its
`FieldNotFound` is the operator route consulted, which then decides the
outcome.  Within the declared-member route the type's own member table is
consulted first — a hit ends the resolution with the supers untouched;
on a miss the super-types are recursed left-to-right, the first super that
resolves the key winning and a `FieldNotFound` super being skipped. -/
theorem c1_member_resolution_order :
    (∀ (fuel : Nat) (db : DbIndex) (t : LuaType) (ie : LuaIndexMemberExpr) (v : LuaType),
      (infer_member_by_member_key fuel db t ie InferGuard.new).1 = .ok v →
      infer_index_expr fuel db t ie = .ok v) ∧
    (∀ (fuel : Nat) (db : DbIndex) (t : LuaType) (ie : LuaIndexMemberExpr),
      (infer_member_by_member_key fuel db t ie InferGuard.new).1 = .error .fieldNotFound →
      infer_index_expr fuel db t ie = (infer_member_by_operator fuel db t ie InferGuard.new).1) ∧
    (∀ (fuel : Nat) (db : DbIndex) (declId : Nat) (ie : LuaIndexMemberExpr)
        (g g1 : InferGuard) (typeDecl : LuaTypeDecl) (indexKey : LuaIndexKey)
        (key : LuaMemberKey) (res : Except InferFailReason LuaType),
      g.check declId = .ok g1 →
      db.getTypeDecl declId = some typeDecl →
      typeDecl.isAlias = false →
      (!ie.isTableField && ie.enumVarIsParam) = false →
      ie.key = some indexKey →
      LuaMemberKey.fromIndexKey indexKey = .ok key →
      db.getMemberItem (.type declId) key = some res →
      infer_custom_type_member (fuel + 1) db declId ie g = (res, g1)) ∧
    (∀ (fuel : Nat) (db : DbIndex) (declId : Nat) (ie : LuaIndexMemberExpr)
        (g g1 g2 : InferGuard) (typeDecl : LuaTypeDecl) (indexKey : LuaIndexKey)
        (key : LuaMemberKey) (supers : List LuaType) (r : Except InferFailReason LuaType),
      g.check declId = .ok g1 →
      db.getTypeDecl declId = some typeDecl →
      typeDecl.isAlias = false →
      (!ie.isTableField && ie.enumVarIsParam) = false →
      ie.key = some indexKey →
      LuaMemberKey.fromIndexKey indexKey = .ok key →
      db.getMemberItem (.type declId) key = Option.none →
      typeDecl.isClass = true →
      db.getSuperTypes declId = some supers →
      forSupersKey fuel db supers ie g1 = (some r, g2) →
      infer_custom_type_member (fuel + 1) db declId ie g = (r, g2)) ∧
    (∀ (fuel : Nat) (db : DbIndex) (s : LuaType) (rest : List LuaType)
        (ie : LuaIndexMemberExpr) (g g2 : InferGuard) (v : LuaType),
      infer_member_by_member_key fuel db s ie g = (.ok v, g2) →
      forSupersKey fuel db (s :: rest) ie g = (some (.ok v), g2)) ∧
    (∀ (fuel : Nat) (db : DbIndex) (s : LuaType) (rest : List LuaType)
        (ie : LuaIndexMemberExpr) (g g2 : InferGuard),
      infer_member_by_member_key fuel db s ie g = (.error .fieldNotFound, g2) →
      forSupersKey fuel db (s :: rest) ie g = forSupersKey fuel db rest ie g2) := by
  refine ⟨?_, ?_, ?_, ?_, ?_, ?_⟩
  · intro fuel db t ie v h
    simp [infer_index_expr, h]
  · intro fuel db t ie h
    rw [infer_index_expr, h]
    rcases hop : (infer_member_by_operator fuel db t ie InferGuard.new).1 with e | v
    · cases e <;> simp
    · simp
  · intro fuel db declId ie g g1 typeDecl indexKey key res hg hdecl halias henum hkey hfrom hmem
    simp [infer_custom_type_member, hg, hdecl, halias, henum, hkey, hfrom, hmem]
  · intro fuel db declId ie g g1 g2 typeDecl indexKey key supers r hg hdecl halias henum hkey
      hfrom hmem hclass hsup hloop
    simp [infer_custom_type_member, hg, hdecl, halias, henum, hkey, hfrom, hmem, hclass,
      hsup, hloop]
  · intro fuel db s rest ie g g2 v h
    simp [forSupersKey, h]
  · intro fuel db s rest ie g g2 h
    simp [forSupersKey, h]

/-- A class declaration with no alias origin, for the C1 witness database. -/
def c1Decl : LuaTypeDecl := ⟨.cls, Option.none, false⟩

/-- A two-class database: class 1 declares `y` and extends class 2, which
declares `x`. -/
def c1Db : DbIndex :=
  ⟨[(1, c1Decl), (2, c1Decl)], [(1, [.Ref 2])],
   [⟨.type 1, .name "y", .ok .String⟩, ⟨.type 2, .name "x", .ok .Integer⟩],
   [], [], false, Option.none⟩

/-- The index access `·.y` on the C1 witness database. -/
def ieY : LuaIndexMemberExpr := ⟨some (.name "y"), false, true, false, false⟩

/-- The index access `·.x` on the C1 witness database. -/
def ieX : LuaIndexMemberExpr := ⟨some (.name "x"), false, true, false, false⟩

/-- The index access `·.z` (an undeclared key) on the C1 witness database. -/
def ieZ : LuaIndexMemberExpr := ⟨some (.name "z"), false, true, false, false⟩

/-- Witness for C1 on the two-class database: an own-table hit, a miss
deferring to the operator route, an own-table hit ignoring the supers, a
super-table hit, a first-super win, and a `FieldNotFound` skip. -/
theorem c1_member_resolution_order_witness :
    infer_index_expr 5 c1Db (.Ref 1) ieY = .ok .String ∧
    infer_index_expr 5 c1Db (.Ref 1) ieZ
      = (infer_member_by_operator 5 c1Db (.Ref 1) ieZ InferGuard.new).1 ∧
    infer_custom_type_member 5 c1Db 1 ieY InferGuard.new = (.ok .String, ⟨[1]⟩) ∧
    infer_custom_type_member 5 c1Db 1 ieX InferGuard.new = (.ok .Integer, ⟨[2, 1]⟩) ∧
    forSupersKey 3 c1Db (.Ref 2 :: []) ieX ⟨[1]⟩ = (some (.ok .Integer), ⟨[2, 1]⟩) ∧
    forSupersKey 3 c1Db (.Ref 2 :: []) ieY ⟨[]⟩ = forSupersKey 3 c1Db [] ieY ⟨[2]⟩ := by
  refine ⟨?_, ?_, ?_, ?_, ?_, ?_⟩
  · exact c1_member_resolution_order.1 5 c1Db (.Ref 1) ieY .String
      (by simp [infer_member_by_member_key, infer_custom_type_member, forSupersKey,
        exprKeyFallback, InferGuard.new, InferGuard.check, DbIndex.getTypeDecl,
        DbIndex.getMemberItem, DbIndex.getSuperTypes, LuaMemberKey.fromIndexKey,
        LuaMemberKey.beq, LuaMemberOwner.beq, LuaTypeDecl.isAlias, LuaTypeDecl.isClass,
        c1Db, c1Decl, ieY, List.find?])
  · exact c1_member_resolution_order.2.1 5 c1Db (.Ref 1) ieZ
      (by simp [infer_member_by_member_key, infer_custom_type_member, forSupersKey,
        exprKeyFallback, InferGuard.new, InferGuard.check, DbIndex.getTypeDecl,
        DbIndex.getMemberItem, DbIndex.getSuperTypes, LuaMemberKey.fromIndexKey,
        LuaMemberKey.beq, LuaMemberOwner.beq, LuaTypeDecl.isAlias, LuaTypeDecl.isClass,
        c1Db, c1Decl, ieZ, List.find?])
  · exact c1_member_resolution_order.2.2.1 4 c1Db 1 ieY InferGuard.new ⟨[1]⟩ c1Decl
      (.name "y") (.name "y") (.ok .String) rfl rfl rfl rfl rfl rfl rfl
  · exact c1_member_resolution_order.2.2.2.1 4 c1Db 1 ieX InferGuard.new ⟨[1]⟩ ⟨[2, 1]⟩
      c1Decl (.name "x") (.name "x") [.Ref 2] (.ok .Integer) rfl rfl rfl rfl rfl rfl rfl rfl rfl
      (by simp [forSupersKey, infer_member_by_member_key, infer_custom_type_member,
        InferGuard.check, DbIndex.getTypeDecl, DbIndex.getMemberItem, DbIndex.getSuperTypes,
        LuaMemberKey.fromIndexKey, LuaMemberKey.beq, LuaMemberOwner.beq, LuaTypeDecl.isAlias,
        LuaTypeDecl.isClass, c1Db, c1Decl, ieX, List.find?])
  · exact c1_member_resolution_order.2.2.2.2.1 3 c1Db (.Ref 2) [] ieX ⟨[1]⟩ ⟨[2, 1]⟩ .Integer
      (by simp [infer_member_by_member_key, infer_custom_type_member, forSupersKey,
        exprKeyFallback, InferGuard.check, DbIndex.getTypeDecl, DbIndex.getMemberItem,
        DbIndex.getSuperTypes, LuaMemberKey.fromIndexKey, LuaMemberKey.beq,
        LuaMemberOwner.beq, LuaTypeDecl.isAlias, LuaTypeDecl.isClass, c1Db, c1Decl, ieX,
        List.find?])
  · exact c1_member_resolution_order.2.2.2.2.2 3 c1Db (.Ref 2) [] ieY ⟨[]⟩ ⟨[2]⟩
      (by simp [infer_member_by_member_key, infer_custom_type_member, forSupersKey,
        exprKeyFallback, InferGuard.check, DbIndex.getTypeDecl, DbIndex.getMemberItem,
        DbIndex.getSuperTypes, LuaMemberKey.fromIndexKey, LuaMemberKey.beq,
        LuaMemberOwner.beq, LuaTypeDecl.isAlias, LuaTypeDecl.isClass, c1Db, c1Decl, ieY,
        List.find?])

/-- Counterexample to C6: in `local a, b = 1` the surplus name `b` is left
without any binding — it is not bound to `Nil` as claimed, because the
trailing-names branch writes nothing when the last expression's type is
known and not `Variadic`. -/
theorem c6_counterexample :
    analyze_local_stat 2 [⟨.ok (.IntegerConst 1), false⟩]
      = [.typed (.IntegerConst 1), .unbound] ∧
    (NameBind.unbound ≠ NameBind.typed .Nil) := by
  constructor
  · simp [analyze_local_stat, localStatLoop, localStatStep, List.getLast?]
  · simp

/-- C6 (amended): with no value expressions every name binds to `Nil`; a
successfully inferred non-`Variadic`, non-deferred value binds its name to
its type; with more names than values a `Variadic` last value feeds the
surplus names from its tail, while a known non-`Variadic` last value
leaves the surplus names unbound (they are not bound to `Nil`). -/
theorem c6_local_stat_binding :
    (∀ n : Nat, analyze_local_stat n [] = List.replicate n (NameBind.typed .Nil)) ∧
    (∀ (n : Nat) (exprs : List LocalExprInfo) (lastExpr : LocalExprInfo),
      exprs ≠ [] → (localStatLoop n exprs).2 = false → exprs.length < n →
      exprs.getLast? = some lastExpr →
      (∀ ts, lastExpr.ty = .ok (.Variadic ts) →
        analyze_local_stat n exprs = (localStatLoop n exprs).1 ++
          (List.range (n - exprs.length)).map (fun j =>
            match ts.get? (j + 1) with
            | some t => NameBind.typed t
            | Option.none => NameBind.typed .Unknown)) ∧
      (∀ t, lastExpr.ty = .ok t → (∀ ts, t ≠ .Variadic ts) →
        analyze_local_stat n exprs
          = (localStatLoop n exprs).1 ++ List.replicate (n - exprs.length) NameBind.unbound)) ∧
    (∀ (e : LocalExprInfo) (rest : List LocalExprInfo) (n : Nat) (t : LuaType),
      e.ty = .ok t → (∀ ts, t ≠ .Variadic ts) → (∀ b r, t ≠ .Instance b r) →
      localStatLoop (n + 1) (e :: rest)
        = (NameBind.typed t :: (localStatLoop n rest).1, (localStatLoop n rest).2)) := by
  refine ⟨?_, ?_, ?_⟩
  · intro n
    simp [analyze_local_stat]
  · intro n exprs lastExpr hne hab hlen hlast
    have h0 : ¬ (exprs.length = 0) := by
      simpa [List.length_eq_zero] using hne
    constructor
    · intro ts hty
      rw [analyze_local_stat]
      simp [h0, hab, hlen, hlast, hty]
    · intro t hty hvar
      rw [analyze_local_stat]
      cases t <;>
        first
        | exact absurd rfl (hvar _)
        | simp [h0, hab, hlen, hlast, hty]
  · intro e rest n t hty hvar hinst
    cases t <;>
      first
      | exact absurd rfl (hvar _)
      | exact absurd rfl (hinst _ _)
      | simp [localStatLoop, localStatStep, hty]

/-- Witness for C6 (amended): three names with no values, a single bound
name, a variadic tail, and a surplus name left unbound. -/
theorem c6_local_stat_binding_witness :
    analyze_local_stat 3 [] = List.replicate 3 (NameBind.typed .Nil) ∧
    localStatLoop 1 [⟨.ok .Integer, false⟩]
      = (NameBind.typed .Integer :: (localStatLoop 0 []).1, (localStatLoop 0 []).2) ∧
    analyze_local_stat 2 [⟨.ok (.Variadic [.Integer, .String]), false⟩]
      = (localStatLoop 2 [⟨.ok (.Variadic [.Integer, .String]), false⟩]).1 ++
        (List.range 1).map (fun j =>
          match [LuaType.Integer, LuaType.String].get? (j + 1) with
          | some t => NameBind.typed t
          | Option.none => NameBind.typed .Unknown) ∧
    analyze_local_stat 2 [⟨.ok .Integer, false⟩]
      = (localStatLoop 2 [⟨.ok .Integer, false⟩]).1 ++ List.replicate 1 NameBind.unbound := by
  refine ⟨?_, ?_, ?_, ?_⟩
  · exact c6_local_stat_binding.1 3
  · exact c6_local_stat_binding.2.2 ⟨.ok .Integer, false⟩ [] 0 .Integer rfl
      (by simp) (by simp)
  · exact (c6_local_stat_binding.2.1 2 [⟨.ok (.Variadic [.Integer, .String]), false⟩]
      ⟨.ok (.Variadic [.Integer, .String]), false⟩ (by simp)
      (by simp [localStatLoop, localStatStep]) (by norm_num) rfl).1
      [.Integer, .String] rfl
  · exact (c6_local_stat_binding.2.1 2 [⟨.ok .Integer, false⟩] ⟨.ok .Integer, false⟩
      (by simp) (by simp [localStatLoop, localStatStep]) (by norm_num) rfl).2
      .Integer rfl (by simp)

/-- An invalid glob pattern. -/
def invalidGlob : GlobPattern := ⟨false, []⟩

/-- A valid glob pattern matching exactly `a.lua`. -/
def globA : GlobPattern := ⟨true, ["a.lua"]⟩

/-- Counterexample to C7: with one invalid include pattern next to a valid
one, discovery returns the empty file list instead of continuing with the
valid pattern, which alone would have matched `a.lua`. -/
theorem c7_counterexample :
    load_workspace_files ["a.lua"] [invalidGlob, globA] [] [] [] = some [] ∧
    load_workspace_files ["a.lua"] [globA] [] [] [] = some ["a.lua"] ∧
    (some ([] : List String) ≠ some ["a.lua"]) := by
  refine ⟨?_, ?_, ?_⟩
  · simp [load_workspace_files, wax_any, invalidGlob, globA]
  · simp [load_workspace_files, wax_any, globAnyMatch, invalidGlob, globA]
  · simp

/-- C7 (amended): an invalid include or exclude glob pattern is logged and
makes `load_workspace_files` return `Ok` with an empty file list — the
whole discovery is aborted, it does not continue with the remaining
patterns; only when every include and exclude pattern is valid are the
matching files returned (an invalid force-include pattern panics). -/
theorem c7_invalid_glob_aborts_discovery :
    (∀ (files : List String) (inc exc : List GlobPattern) (dirs : List String)
        (force : List GlobPattern),
      (∃ p ∈ inc, p.valid = false) →
      load_workspace_files files inc exc dirs force = some []) ∧
    (∀ (files : List String) (inc exc : List GlobPattern) (dirs : List String)
        (force : List GlobPattern),
      inc.all (·.valid) = true →
      (∃ p ∈ exc, p.valid = false) →
      load_workspace_files files inc exc dirs force = some []) ∧
    (∀ (files : List String) (inc exc : List GlobPattern) (dirs : List String)
        (force : List GlobPattern),
      inc.all (·.valid) = true → exc.all (·.valid) = true → force.all (·.valid) = true →
      load_workspace_files files inc exc dirs force = some (files.filter (fun path =>
        if (globAnyMatch exc path || dirs.any (fun d => d.isPrefixOf path))
            && !globAnyMatch force path then false
        else globAnyMatch inc path))) := by
  refine ⟨?_, ?_, ?_⟩
  · intro files inc exc dirs force hp
    have hall : inc.all (·.valid) = false := by
      rcases hp with ⟨p, hmem, hval⟩
      by_contra hcon
      simp only [Bool.not_eq_false] at hcon
      exact absurd (List.all_eq_true.mp hcon p hmem) (by simp [hval])
    simp [load_workspace_files, wax_any, hall]
  · intro files inc exc dirs force hinc hp
    have hall : exc.all (·.valid) = false := by
      rcases hp with ⟨p, hmem, hval⟩
      by_contra hcon
      simp only [Bool.not_eq_false] at hcon
      exact absurd (List.all_eq_true.mp hcon p hmem) (by simp [hval])
    simp [load_workspace_files, wax_any, hinc, hall]
  · intro files inc exc dirs force hinc hexc hforce
    simp [load_workspace_files, wax_any, hinc, hexc, hforce]

/-- Witness for C7 (amended): an invalid include pattern, an invalid
exclude pattern, and a fully valid configuration. -/
theorem c7_invalid_glob_aborts_discovery_witness :
    load_workspace_files ["a.lua"] [invalidGlob] [] [] [] = some [] ∧
    load_workspace_files ["a.lua"] [globA] [invalidGlob] [] [] = some [] ∧
    load_workspace_files ["a.lua"] [globA] [] [] []
      = some (["a.lua"].filter (fun path =>
          if (globAnyMatch [] path || [].any (fun d => String.isPrefixOf d path))
              && !globAnyMatch [] path then false
          else globAnyMatch [globA] path)) := by
  refine ⟨?_, ?_, ?_⟩
  · exact c7_invalid_glob_aborts_discovery.1 ["a.lua"] [invalidGlob] [] [] []
      ⟨invalidGlob, by simp, rfl⟩
  · exact c7_invalid_glob_aborts_discovery.2.1 ["a.lua"] [globA] [invalidGlob] [] []
      (by simp [globA]) ⟨invalidGlob, by simp, rfl⟩
  · exact c7_invalid_glob_aborts_discovery.2.2 ["a.lua"] [globA] [] [] []
      (by simp [globA]) rfl rfl
